import Mathlib

/-!
Pixel arithmetic of the Android sfnt font driver.

A shallow embedding of the pixel helpers, the bitmap compositor and the text
box computation of `sfntfont-android.c`, and of the numeric macros and
enumerations of `sfnt.h`.

`unsigned int` and `uint32_t` values are natural numbers below `2 ^ 32`; every
C operation that can leave that range is followed by an explicit `% 2 ^ 32`.
`sfnt_fixed` (`int32_t`) values are integers, converted to and from their
two's complement bit pattern where the C code mixes them with unsigned
operands.
-/

namespace Sfnt

/-! ## Machine words -/

/-- Largest `unsigned int`, the value of `(unsigned int) -1`. -/
def UINT_MAX : Nat := 4294967295

/-- Byte number `k` of a word, byte 0 being bits 0-7. -/
def byteAt (k x : Nat) : Nat := (x >>> (8 * k)) % 256

/-- A pixel whose three colour bytes are each at most its alpha byte (byte 3). -/
def premultiplied (p : Nat) : Prop :=
  byteAt 0 p ≤ byteAt 3 p ∧ byteAt 1 p ≤ byteAt 3 p ∧ byteAt 2 p ≤ byteAt 3 p

instance (p : Nat) : Decidable (premultiplied p) := by
  unfold premultiplied; infer_instance

/-- Nearest integer to `x / 255` (a tie cannot occur: `255` is odd). -/
def roundDiv255 (x : Nat) : Nat := (2 * x + 255) / 510

/-- The word whose bytes 0 and 2 are those of `p` exchanged. -/
def swapRB (p : Nat) : Nat :=
  byteAt 2 p + 256 * byteAt 1 p + 65536 * byteAt 0 p + 16777216 * byteAt 3 p

/-! ## `sfntfont-android.c` -/

/-- C: `c = a + b; if (c < a) c = -1; return c;` on `unsigned int`. -/
def sfntfont_android_saturate32 (a b : Nat) : Nat :=
  let c := (a + b) % 4294967296
  if c < a then 4294967295 else c

/-- C: `sfntfont_android_scale32 (scale, p)`, with `uint32_t` locals. -/
def sfntfont_android_scale32 (scale p : Nat) : Nat :=
  let ag := (p &&& 0xFF00FF00) >>> 8
  let rb := p &&& 0x00FF00FF
  let scaled_ag := ((scale * ag) % 4294967296) &&& 0xFF00FF00
  let scaled_rb := (((scale * rb) % 4294967296) >>> 8) &&& 0x00FF00FF
  scaled_ag ||| scaled_rb

/-- C: `sfntfont_android_mul8x2 (a8, b32)`. -/
def sfntfont_android_mul8x2 (a8 b32 : Nat) : Nat :=
  let b32 := b32 &&& 0xff00ff
  let i := (a8 * b32 + 0x800080) % 4294967296
  (((i + ((i >>> 8) &&& 0xff00ff)) % 4294967296) >>> 8) &&& 0xff00ff

/-- The local `both` of `sfntfont_android_blend` and of
`sfntfont_android_blendrgb`: `ag_part | br_part` (the two functions compute it
by the same statements). `255 - a` is an `unsigned int` subtraction. -/
def blend_both (src dst : Nat) : Nat :=
  let a := src >>> 24
  let rb_part := sfntfont_android_mul8x2 ((255 + 4294967296 - a) % 4294967296) dst
  let ag_part :=
    (sfntfont_android_mul8x2 ((255 + 4294967296 - a) % 4294967296) (dst >>> 8) <<< 8)
      % 4294967296
  ag_part ||| rb_part

/-- The value of `src` after the "Swizzle src" statements of
`sfntfont_android_blend`. `~0x00ff00ff` converts to `0xff00ff00`. -/
def blend_swizzle (src : Nat) : Nat :=
  let src_rb := src &&& 0x00ff00ff
  let src := src &&& 0xff00ff00
  src ||| ((src_rb >>> 16) ||| ((src_rb <<< 16) % 4294967296))

/-- C: `sfntfont_android_blend (src, dst)`. -/
def sfntfont_android_blend (src dst : Nat) : Nat :=
  sfntfont_android_saturate32 (blend_both src dst) (blend_swizzle src)

/-- C: `sfntfont_android_blendrgb (src, dst)`. -/
def sfntfont_android_blendrgb (src dst : Nat) : Nat :=
  sfntfont_android_saturate32 (blend_both src dst) src

/-- Modelled from the spec: the macro `min`, which the sources given use but do
not define; the smaller of its two arguments, `((a) < (b) ? (a) : (b))`. -/
def cmin (a b : Int) : Int := if a < b then a else b

/-- Modelled from the spec: the macro `max`, which the sources given use but do
not define; the larger of its two arguments, `((a) > (b) ? (a) : (b))`. -/
def cmax (a b : Int) : Int := if a > b then a else b

/-- Modelled from the spec: `struct gui_box`, declared outside the sources
given; the four `int` members that `sfntfont_android_union_boxes` assigns. -/
structure gui_box where
  x1 : Int
  y1 : Int
  x2 : Int
  y2 : Int
  deriving DecidableEq, Repr

/-- Box `outer` contains box `inner`. -/
def gui_box.contains (outer inner : gui_box) : Prop :=
  outer.x1 ≤ inner.x1 ∧ outer.y1 ≤ inner.y1 ∧ inner.x2 ≤ outer.x2 ∧ inner.y2 ≤ outer.y2

instance (outer inner : gui_box) : Decidable (outer.contains inner) := by
  unfold gui_box.contains; infer_instance

/-- C: `sfntfont_android_union_boxes (a, b, result)`; the value stored in
`*result`. -/
def sfntfont_android_union_boxes (a b : gui_box) : gui_box :=
  { x1 := cmin a.x1 b.x1
    y1 := cmin a.y1 b.y1
    x2 := cmax a.x2 b.x2
    y2 := cmax a.y2 b.y2 }

/-! ## `sfnt.h` -/

/-- Bit pattern of an `int32_t`, as C's conversion to `unsigned int` gives it. -/
def toU32 (x : Int) : Nat := (x % 4294967296).toNat

/-- Value of a 32-bit pattern read as a two's complement `int32_t`. -/
def toS32 (n : Nat) : Int :=
  if n < 2147483648 then (n : Int) else (n : Int) - 4294967296

/-- C: `#define SFNT_CEIL_FIXED(fixed) (!((fixed) & 0177777) ? (fixed)
: ((fixed) + 0200000) & 037777600000)` at an `sfnt_fixed` argument. The
constant `037777600000` does not fit `int`, so it is an `unsigned int`; the
sum is converted to `unsigned int` before the mask is applied, and the whole
conditional has type `unsigned int`. -/
def SFNT_CEIL_FIXED (fixed : Int) : Nat :=
  if toU32 fixed &&& 0o177777 = 0 then toU32 fixed
  else toU32 (fixed + 0o200000) &&& 0o37777600000

/-- C: `#define sfnt_coerce_fixed(fixed) ((sfnt_fixed) (fixed) / 65535.0)`.
The exact quotient that the `double` division then rounds (to a relative
error of at most `2 ^ (-53)`). -/
def sfnt_coerce_fixed (fixed : Int) : ℚ := (fixed : ℚ) / 65535

/-- C: `SFNT_POLY_SHIFT = 2`. -/
def SFNT_POLY_SHIFT : Nat := 2

/-- C: `SFNT_POLY_SAMPLE = (1 << SFNT_POLY_SHIFT)`. -/
def SFNT_POLY_SAMPLE : Nat := 1 <<< SFNT_POLY_SHIFT

/-- C: `SFNT_POLY_MASK = (SFNT_POLY_SAMPLE - 1)`. -/
def SFNT_POLY_MASK : Nat := SFNT_POLY_SAMPLE - 1

/-- C: `SFNT_POLY_STEP = (0x10000 >> SFNT_POLY_SHIFT)`. -/
def SFNT_POLY_STEP : Nat := 0x10000 >>> SFNT_POLY_SHIFT

/-- C: `SFNT_POLY_START = (SFNT_POLY_STEP >> 1)`. -/
def SFNT_POLY_START : Nat := SFNT_POLY_STEP >>> 1

/-- C: `enum sfnt_scaler_type`, enumerator `SFNT_SCALER_TRUE`. -/
def SFNT_SCALER_TRUE : Nat := 0x74727565

/-- C: `enum sfnt_scaler_type`, enumerator `SFNT_SCALER_VER1`. -/
def SFNT_SCALER_VER1 : Nat := 0x00010000

/-- C: `enum sfnt_scaler_type`, enumerator `SFNT_SCALER_TYP1`. -/
def SFNT_SCALER_TYP1 : Nat := 0x74797031

/-- C: `enum sfnt_scaler_type`, enumerator `SFNT_SCALER_OTTO`. -/
def SFNT_SCALER_OTTO : Nat := 0x4F54544F

/-- Big-endian 32-bit value of a four-byte tag: the first byte is the most
significant. -/
def tag32 (a b c d : Char) : Nat :=
  16777216 * a.toNat + 65536 * b.toNat + 256 * c.toNat + d.toNat

/-- C: the members of `struct sfnt_raster` that the compositor reads: `unsigned
short width, height` and `short offx, offy`. -/
structure sfnt_raster where
  width : Nat
  height : Nat
  offx : Int
  offy : Int
  deriving DecidableEq, Repr

/-! ## The text box of `sfntfont_android_put_glyphs`

The arrays `rasters` and `x_coords` are functions of the index; a null raster
is `none`. `int` arithmetic is exact: a signed overflow is undefined in C. -/

/-- The four assignments that `sfntfont_android_put_glyphs` makes to `text`
(for raster 0) and to `character` (for the others): the box of raster `r`
drawn at `x_coord` on the baseline `y`. -/
def raster_box (y x_coord : Int) (r : sfnt_raster) : gui_box :=
  let x1 := x_coord + r.offx
  { x1 := x1
    x2 := x1 + r.width
    y1 := y - (r.height + r.offy)
    y2 := y - r.offy }

/-- The loop `for (i = 1; i < to - from; ++i)` of
`sfntfont_android_put_glyphs`, from index `i` with `count` iterations left:
null rasters are skipped, the others are united into `text`. -/
def put_glyphs_text_loop (y : Int) (rasters : Nat → Option sfnt_raster)
    (x_coords : Nat → Int) : Nat → Nat → gui_box → gui_box
  | _, 0, text => text
  | i, count + 1, text =>
    match rasters i with
    | none => put_glyphs_text_loop y rasters x_coords (i + 1) count text
    | some r =>
      put_glyphs_text_loop y rasters x_coords (i + 1) count
        (sfntfont_android_union_boxes text (raster_box y (x_coords i) r))

/-- The value of `text` in `sfntfont_android_put_glyphs` after "Now figure out
the bounds of the text", for a call with `from < to` (one with `from == to`
returns before). A null `rasters[0]` leaves the zeroed box. -/
def put_glyphs_text (from_idx to_idx y : Int) (rasters : Nat → Option sfnt_raster)
    (x_coords : Nat → Int) : gui_box :=
  let text :=
    match rasters 0 with
    | some r => raster_box y (x_coords 0) r
    | none => { x1 := 0, y1 := 0, x2 := 0, y2 := 0 }
  put_glyphs_text_loop y rasters x_coords 1 ((to_idx - from_idx).toNat - 1) text

/-! ## `sfntfont_android_composite_bitmap`

A bitmap in memory is a function from the byte offset of a word, counted from
the base pointer, to the `unsigned int` stored there. `buffer` and `dest` are
`restrict` pointers, hence two separate memories. The variables `i`, `src_y`,
`x`, `src_x`, `max_x` and `dst_x` are `unsigned int`, and an `int` operand added
to one of them is first converted to `unsigned int`. Pointer arithmetic is
exact. -/

/-- Modelled from the spec: `struct android_rectangle`, declared outside the
sources given; `int x, y` and `unsigned width, height`. -/
structure android_rectangle where
  x : Int
  y : Int
  width : Nat
  height : Nat
  deriving DecidableEq, Repr

/-- Modelled from the spec: the members of `AndroidBitmapInfo` (declared outside
the sources given) that the compositor reads, each a `uint32_t`. -/
structure AndroidBitmapInfo where
  width : Nat
  height : Nat
  stride : Nat
  deriving DecidableEq, Repr

/-- The inner loop `for (x = 0; x < max_x; ++x)` of
`sfntfont_android_composite_bitmap`, from column `x` with `count` iterations
left; `src_row` and `dst_row` are byte offsets into `buffer` and `dest`. -/
def composite_bitmap_row (buffer : Nat → Nat) (src_row dst_row : Nat)
    (text_rectangle rect : android_rectangle) : Nat → Nat → (Nat → Nat) → (Nat → Nat)
  | _, 0, dest => dest
  | x, count + 1, dest =>
    let src_x := (x + toU32 (rect.x - text_rectangle.x)) % 4294967296
    let dst_x := (x + toU32 rect.x) % 4294967296
    let pixel :=
      sfntfont_android_blend (buffer (src_row + 4 * src_x)) (dest (dst_row + 4 * dst_x))
    composite_bitmap_row buffer src_row dst_row text_rectangle rect (x + 1) count
      (fun o => if o = dst_row + 4 * dst_x then pixel else dest o)

/-- The outer loop `for (i = 0; i < rect->height; ++i)` of
`sfntfont_android_composite_bitmap`, from row `i` with `count` iterations left.
The first branch is the early `return`. -/
def composite_bitmap_rows (buffer : Nat → Nat) (stride : Nat)
    (bitmap_info : AndroidBitmapInfo) (text_rectangle rect : android_rectangle) :
    Nat → Nat → (Nat → Nat) → (Nat → Nat)
  | _, 0, dest => dest
  | i, count + 1, dest =>
    if bitmap_info.height ≤ (i + toU32 rect.y) % 4294967296 then dest
    else
      let src_y := (i + toU32 (rect.y - text_rectangle.y)) % 4294967296
      let src_row := src_y * stride
      let dst_row := ((i + toU32 rect.y) % 4294967296 * bitmap_info.stride) % 4294967296
      let avail := (bitmap_info.width + 4294967296 - toU32 rect.x) % 4294967296
      let max_x := if rect.width < avail then rect.width else avail
      composite_bitmap_rows buffer stride bitmap_info text_rectangle rect (i + 1) count
        (composite_bitmap_row buffer src_row dst_row text_rectangle rect 0 max_x dest)

/-- C: `sfntfont_android_composite_bitmap (buffer, stride, dest, bitmap_info,
text_rectangle, rect)`; `dest_addr` is the address held by `dest`. The result
is the memory at `dest` after the call, or `none` for `emacs_abort ()`. -/
def sfntfont_android_composite_bitmap (buffer : Nat → Nat) (stride : Nat)
    (dest_addr : Nat) (dest : Nat → Nat) (bitmap_info : AndroidBitmapInfo)
    (text_rectangle rect : android_rectangle) : Option (Nat → Nat) :=
  if dest_addr &&& 3 ≠ 0 ∨ bitmap_info.stride &&& 3 ≠ 0 then none
  else some (composite_bitmap_rows buffer stride bitmap_info text_rectangle rect 0
    rect.height dest)

/-! ## Bit-level helper lemmas -/

theorem and_split (k x y : Nat) :
    x &&& y = (x % 2 ^ k &&& y % 2 ^ k) + 2 ^ k * (x / 2 ^ k &&& y / 2 ^ k) := by
  apply Nat.eq_of_testBit_eq
  intro i
  have hlt : (x % 2 ^ k &&& y % 2 ^ k) < 2 ^ k :=
    Nat.and_lt_two_pow _ (Nat.mod_lt _ (Nat.two_pow_pos k))
  rw [Nat.add_comm, Nat.testBit_mul_pow_two_add _ hlt]
  by_cases h : i < k
  · simp [h, Nat.testBit_mod_two_pow]
  · have hk : k + (i - k) = i := by omega
    simp [h, Nat.testBit_and, ← Nat.shiftRight_eq_div_pow, Nat.testBit_shiftRight, hk]

theorem or_split (k x y : Nat) :
    x ||| y = (x % 2 ^ k ||| y % 2 ^ k) + 2 ^ k * (x / 2 ^ k ||| y / 2 ^ k) := by
  apply Nat.eq_of_testBit_eq
  intro i
  have hlt : (x % 2 ^ k ||| y % 2 ^ k) < 2 ^ k :=
    Nat.or_lt_two_pow (Nat.mod_lt _ (Nat.two_pow_pos k)) (Nat.mod_lt _ (Nat.two_pow_pos k))
  rw [Nat.add_comm, Nat.testBit_mul_pow_two_add _ hlt]
  by_cases h : i < k
  · simp [h, Nat.testBit_mod_two_pow]
  · have hk : k + (i - k) = i := by omega
    simp [h, Nat.testBit_or, ← Nat.shiftRight_eq_div_pow, Nat.testBit_shiftRight, hk]

theorem and_255 (x : Nat) : x &&& 255 = x % 256 :=
  Nat.and_pow_two_sub_one_eq_mod x 8

/-- The mask `0x00FF00FF` keeps bytes 0 and 2. -/
theorem and_mask_rb (x : Nat) :
    x &&& 0x00FF00FF = x % 256 + 65536 * (x / 65536 % 256) := by
  rw [and_split 8 x 0x00FF00FF]
  norm_num
  rw [and_255, and_split 8 (x / 256) 65280]
  norm_num
  rw [and_255, Nat.div_div_eq_div_mul]
  omega

/-- The mask `0xFF00FF00` keeps bytes 1 and 3 (of a word of any size, bits
above 31 being dropped). -/
theorem and_mask_ag (x : Nat) :
    x &&& 0xFF00FF00 = 256 * (x / 256 % 256) + 16777216 * (x / 16777216 % 256) := by
  rw [and_split 8 x 0xFF00FF00]
  norm_num
  rw [and_mask_rb]
  omega

/-- Or of a word with bytes 1 and 3 only and a word with bytes 0 and 2 only. -/
theorem or_lanes (a b : Nat) (ha0 : a % 256 = 0) (ha2 : a / 65536 % 256 = 0)
    (hb1 : b / 256 % 256 = 0) (hb3 : b / 16777216 = 0) :
    a ||| b = a + b := by
  have e0 : a % 2 ^ 8 = 0 := by omega
  have e1 : b / 2 ^ 8 % 2 ^ 8 = 0 := by omega
  have e2 : a / 2 ^ 8 / 2 ^ 8 % 2 ^ 8 = 0 := by omega
  have e3 : b / 2 ^ 8 / 2 ^ 8 / 2 ^ 8 = 0 := by omega
  rw [or_split 8 a b, e0, Nat.zero_or, or_split 8 (a / 2 ^ 8) (b / 2 ^ 8), e1, Nat.or_zero,
    or_split 8 (a / 2 ^ 8 / 2 ^ 8) (b / 2 ^ 8 / 2 ^ 8), e2, Nat.zero_or, e3, Nat.or_zero]
  omega

/-- The shift-and-add division by 255 used by `sfntfont_android_mul8x2` rounds
to nearest on every product of two bytes. -/
theorem lane_round (t : Nat) (h : t ≤ 255 * 255) :
    (t + 128 + (t + 128) / 256) / 256 = roundDiv255 t := by
  unfold roundDiv255
  omega

/-- Each 16-bit lane of `sfntfont_android_mul8x2 (a8, b32)` holds the rounded
quotient of `a8` times the low byte of the same lane of `b32` by 255. -/
theorem mul8x2_eq (a8 b32 : Nat) (ha : a8 ≤ 255) :
    sfntfont_android_mul8x2 a8 b32
      = roundDiv255 (a8 * (b32 % 256)) + 65536 * roundDiv255 (a8 * (b32 / 65536 % 256)) := by
  have hu : a8 * (b32 % 256) ≤ 255 * 255 :=
    Nat.mul_le_mul ha (by omega)
  have hv : a8 * (b32 / 65536 % 256) ≤ 255 * 255 :=
    Nat.mul_le_mul ha (by omega)
  rw [← lane_round _ hu, ← lane_round _ hv]
  unfold sfntfont_android_mul8x2
  simp only [Nat.shiftRight_eq_div_pow, and_mask_rb, Nat.mul_add, Nat.mul_left_comm a8 65536]
  generalize a8 * (b32 % 256) = u at *
  generalize a8 * (b32 / 65536 % 256) = v at *
  have hi : (u + 65536 * v + 8388736) % 4294967296 = (u + 128) + 65536 * (v + 128) := by
    omega
  rw [hi]
  have h1 : ((u + 128) + 65536 * (v + 128)) / 2 ^ 8 % 256 = (u + 128) / 256 := by omega
  have h2 : ((u + 128) + 65536 * (v + 128)) / 2 ^ 8 / 65536 % 256 = (v + 128) / 256 := by
    omega
  rw [h1, h2]
  have hj : (u + 128 + 65536 * (v + 128) + ((u + 128) / 256 + 65536 * ((v + 128) / 256)))
      % 4294967296
      = (u + 128 + (u + 128) / 256) + 65536 * (v + 128 + (v + 128) / 256) := by
    omega
  rw [hj]
  have hP : u + 128 + (u + 128) / 256 < 65536 := by omega
  have hQ : v + 128 + (v + 128) / 256 < 65536 := by omega
  clear hi h1 h2 hj
  generalize u + 128 + (u + 128) / 256 = P at *
  generalize v + 128 + (v + 128) / 256 = Q at *
  omega

/-! ## Bytes of a word -/

theorem byteAt_zero (x : Nat) : byteAt 0 x = x % 256 := by
  simp [byteAt]

theorem byteAt_one (x : Nat) : byteAt 1 x = x / 256 % 256 := by
  simp [byteAt, Nat.shiftRight_eq_div_pow]

theorem byteAt_two (x : Nat) : byteAt 2 x = x / 65536 % 256 := by
  simp [byteAt, Nat.shiftRight_eq_div_pow]

theorem byteAt_three (x : Nat) : byteAt 3 x = x / 16777216 % 256 := by
  simp [byteAt, Nat.shiftRight_eq_div_pow]

theorem byteAt_le (k x : Nat) : byteAt k x ≤ 255 := by
  unfold byteAt
  omega

/-- A 32-bit word is the sum of its four bytes. -/
theorem word_eq_bytes (x : Nat) (h : x < 4294967296) :
    x = byteAt 0 x + 256 * byteAt 1 x + 65536 * byteAt 2 x + 16777216 * byteAt 3 x := by
  rw [byteAt_zero, byteAt_one, byteAt_two, byteAt_three]
  omega

/-- Bytes of a word given by four byte-sized digits. -/
theorem byteAt_digits (c0 c1 c2 c3 : Nat) (h0 : c0 ≤ 255) (h1 : c1 ≤ 255) (h2 : c2 ≤ 255)
    (h3 : c3 ≤ 255) :
    byteAt 0 (c0 + 256 * c1 + 65536 * c2 + 16777216 * c3) = c0 ∧
    byteAt 1 (c0 + 256 * c1 + 65536 * c2 + 16777216 * c3) = c1 ∧
    byteAt 2 (c0 + 256 * c1 + 65536 * c2 + 16777216 * c3) = c2 ∧
    byteAt 3 (c0 + 256 * c1 + 65536 * c2 + 16777216 * c3) = c3 := by
  rw [byteAt_zero, byteAt_one, byteAt_two, byteAt_three]
  omega

/-! ## Rounded division by 255 -/

theorem roundDiv255_mul_le (m b : Nat) (hb : b ≤ 255) : roundDiv255 (m * b) ≤ m := by
  have h := Nat.mul_le_mul_left m hb
  unfold roundDiv255
  omega

theorem roundDiv255_mono {x y : Nat} (h : x ≤ y) : roundDiv255 x ≤ roundDiv255 y := by
  unfold roundDiv255
  omega

/-- The value `roundDiv255 x` is within `127 / 255 < 1 / 2` of `x / 255`. -/
theorem roundDiv255_nearest (x : Nat) :
    255 * roundDiv255 x ≤ x + 127 ∧ x ≤ 255 * roundDiv255 x + 127 := by
  unfold roundDiv255
  omega

/-! ## The blend functions, byte by byte -/

/-- The local `both`: byte `k` is the rounded product of `255 - a` and byte `k`
of `dst`, `a` being the alpha byte of `src`. -/
theorem blend_both_eq (src dst : Nat) (hs : src < 4294967296) :
    blend_both src dst
      = roundDiv255 ((255 - byteAt 3 src) * byteAt 0 dst)
        + 256 * roundDiv255 ((255 - byteAt 3 src) * byteAt 1 dst)
        + 65536 * roundDiv255 ((255 - byteAt 3 src) * byteAt 2 dst)
        + 16777216 * roundDiv255 ((255 - byteAt 3 src) * byteAt 3 dst) := by
  have ha : src >>> 24 = byteAt 3 src := by
    rw [byteAt_three, Nat.shiftRight_eq_div_pow]
    omega
  have hale : byteAt 3 src ≤ 255 := byteAt_le 3 src
  have hm : (255 + 4294967296 - byteAt 3 src) % 4294967296 = 255 - byteAt 3 src := by
    omega
  unfold blend_both
  simp only [ha, hm]
  rw [mul8x2_eq _ _ (Nat.sub_le 255 _), mul8x2_eq _ _ (Nat.sub_le 255 _)]
  have e0 : dst % 256 = byteAt 0 dst := (byteAt_zero dst).symm
  have e1 : dst >>> 8 % 256 = byteAt 1 dst := by
    rw [byteAt_one, Nat.shiftRight_eq_div_pow]
  have e2 : dst / 65536 % 256 = byteAt 2 dst := (byteAt_two dst).symm
  have e3 : dst >>> 8 / 65536 % 256 = byteAt 3 dst := by
    rw [byteAt_three, Nat.shiftRight_eq_div_pow]
    omega
  rw [e0, e1, e2, e3]
  have r0 := roundDiv255_mul_le (255 - byteAt 3 src) _ (byteAt_le 0 dst)
  have r1 := roundDiv255_mul_le (255 - byteAt 3 src) _ (byteAt_le 1 dst)
  have r2 := roundDiv255_mul_le (255 - byteAt 3 src) _ (byteAt_le 2 dst)
  have r3 := roundDiv255_mul_le (255 - byteAt 3 src) _ (byteAt_le 3 dst)
  generalize roundDiv255 ((255 - byteAt 3 src) * byteAt 0 dst) = R0 at *
  generalize roundDiv255 ((255 - byteAt 3 src) * byteAt 1 dst) = R1 at *
  generalize roundDiv255 ((255 - byteAt 3 src) * byteAt 2 dst) = R2 at *
  generalize roundDiv255 ((255 - byteAt 3 src) * byteAt 3 dst) = R3 at *
  rw [Nat.shiftLeft_eq]
  have hag : (R1 + 65536 * R3) * 2 ^ 8 % 4294967296 = 256 * R1 + 16777216 * R3 := by
    omega
  rw [hag, or_lanes _ _ (by omega) (by omega) (by omega) (by omega)]
  omega

/-- The swizzle statements of `sfntfont_android_blend` exchange bytes 0 and 2. -/
theorem blend_swizzle_eq (src : Nat) : blend_swizzle src = swapRB src := by
  unfold blend_swizzle swapRB
  simp only [and_mask_rb, and_mask_ag, Nat.shiftRight_eq_div_pow, Nat.shiftLeft_eq]
  rw [byteAt_zero, byteAt_one, byteAt_two, byteAt_three]
  have hb0 : src % 256 ≤ 255 := by omega
  have hb1 : src / 256 % 256 ≤ 255 := by omega
  have hb2 : src / 65536 % 256 ≤ 255 := by omega
  have hb3 : src / 16777216 % 256 ≤ 255 := by omega
  generalize src % 256 = b0 at *
  generalize src / 256 % 256 = b1 at *
  generalize src / 65536 % 256 = b2 at *
  generalize src / 16777216 % 256 = b3 at *
  have h1 : (b0 + 65536 * b2) / 2 ^ 16 = b2 := by omega
  have h2 : (b0 + 65536 * b2) * 2 ^ 16 % 4294967296 = 2 ^ 16 * b0 := by omega
  rw [h1, h2, Nat.or_comm b2, ← Nat.mul_add_lt_is_or (by omega : b2 < 2 ^ 16) b0,
    or_lanes _ _ (by omega) (by omega) (by omega) (by omega)]
  omega

theorem swapRB_lt (src : Nat) : swapRB src < 4294967296 := by
  have h0 := byteAt_le 0 src
  have h1 := byteAt_le 1 src
  have h2 := byteAt_le 2 src
  have h3 := byteAt_le 3 src
  unfold swapRB
  omega

theorem byteAt_swapRB (src : Nat) :
    byteAt 0 (swapRB src) = byteAt 2 src ∧ byteAt 1 (swapRB src) = byteAt 1 src ∧
    byteAt 2 (swapRB src) = byteAt 0 src ∧ byteAt 3 (swapRB src) = byteAt 3 src :=
  byteAt_digits _ _ _ _ (byteAt_le 2 src) (byteAt_le 1 src) (byteAt_le 0 src) (byteAt_le 3 src)

/-- The local `both` depends on `src` through its alpha byte only, which the
swizzle keeps. -/
theorem blend_both_swapRB (src dst : Nat) (hs : src < 4294967296) :
    blend_both (swapRB src) dst = blend_both src dst := by
  rw [blend_both_eq _ _ (swapRB_lt src), blend_both_eq _ _ hs, (byteAt_swapRB src).2.2.2]

theorem blend_eq_blendrgb_swapRB (src dst : Nat) (hs : src < 4294967296) :
    sfntfont_android_blend src dst = sfntfont_android_blendrgb (swapRB src) dst := by
  unfold sfntfont_android_blend sfntfont_android_blendrgb
  rw [blend_swizzle_eq src, blend_both_swapRB src dst hs]

theorem premultiplied_swapRB (src : Nat) (hp : premultiplied src) :
    premultiplied (swapRB src) := by
  obtain ⟨e0, e1, e2, e3⟩ := byteAt_swapRB src
  unfold premultiplied at *
  rw [e0, e1, e2, e3]
  omega

/-- For a premultiplied `src` the sum `both + src` is formed byte by byte, each
byte staying below 256. -/
theorem both_add_src_digits (src dst : Nat) (hs : src < 4294967296)
    (hp : premultiplied src) :
    blend_both src dst + src
      = (byteAt 0 src + roundDiv255 ((255 - byteAt 3 src) * byteAt 0 dst))
        + 256 * (byteAt 1 src + roundDiv255 ((255 - byteAt 3 src) * byteAt 1 dst))
        + 65536 * (byteAt 2 src + roundDiv255 ((255 - byteAt 3 src) * byteAt 2 dst))
        + 16777216 * (byteAt 3 src + roundDiv255 ((255 - byteAt 3 src) * byteAt 3 dst))
    ∧ byteAt 0 src + roundDiv255 ((255 - byteAt 3 src) * byteAt 0 dst) ≤ 255
    ∧ byteAt 1 src + roundDiv255 ((255 - byteAt 3 src) * byteAt 1 dst) ≤ 255
    ∧ byteAt 2 src + roundDiv255 ((255 - byteAt 3 src) * byteAt 2 dst) ≤ 255
    ∧ byteAt 3 src + roundDiv255 ((255 - byteAt 3 src) * byteAt 3 dst) ≤ 255 := by
  have r0 := roundDiv255_mul_le (255 - byteAt 3 src) _ (byteAt_le 0 dst)
  have r1 := roundDiv255_mul_le (255 - byteAt 3 src) _ (byteAt_le 1 dst)
  have r2 := roundDiv255_mul_le (255 - byteAt 3 src) _ (byteAt_le 2 dst)
  have r3 := roundDiv255_mul_le (255 - byteAt 3 src) _ (byteAt_le 3 dst)
  have ha := byteAt_le 3 src
  have hw := word_eq_bytes src hs
  obtain ⟨p0, p1, p2⟩ := hp
  rw [blend_both_eq src dst hs]
  refine ⟨?_, ?_, ?_, ?_, ?_⟩ <;> omega

/-- The saturating addition of `sfntfont_android_blendrgb` is a plain addition
when `src` is premultiplied. -/
theorem blendrgb_eq_add (src dst : Nat) (hs : src < 4294967296) (hp : premultiplied src) :
    blend_both src dst + src < 4294967296
    ∧ sfntfont_android_blendrgb src dst = blend_both src dst + src := by
  obtain ⟨hd, b0, b1, b2, b3⟩ := both_add_src_digits src dst hs hp
  have hlt : blend_both src dst + src < 4294967296 := by
    rw [hd]
    omega
  refine ⟨hlt, ?_⟩
  unfold sfntfont_android_blendrgb sfntfont_android_saturate32
  simp only [Nat.mod_eq_of_lt hlt]
  rw [if_neg (by omega)]

/-- Bytes of `sfntfont_android_blendrgb (src, dst)` for a premultiplied `src`. -/
theorem blendrgb_bytes (src dst : Nat) (hs : src < 4294967296) (hp : premultiplied src)
    (k : Nat) (hk : k < 4) :
    byteAt k (sfntfont_android_blendrgb src dst)
      = byteAt k src + roundDiv255 ((255 - byteAt 3 src) * byteAt k dst)
    ∧ byteAt k src + roundDiv255 ((255 - byteAt 3 src) * byteAt k dst) ≤ 255 := by
  obtain ⟨hd, b0, b1, b2, b3⟩ := both_add_src_digits src dst hs hp
  obtain ⟨e0, e1, e2, e3⟩ := byteAt_digits _ _ _ _ b0 b1 b2 b3
  rw [(blendrgb_eq_add src dst hs hp).2, hd]
  have hk4 : k = 0 ∨ k = 1 ∨ k = 2 ∨ k = 3 := by omega
  rcases hk4 with rfl | rfl | rfl | rfl
  · exact ⟨e0, b0⟩
  · exact ⟨e1, b1⟩
  · exact ⟨e2, b2⟩
  · exact ⟨e3, b3⟩

/-- Blending a premultiplied `src` over a premultiplied `dst` gives a
premultiplied pixel. -/
theorem blendrgb_premultiplied (src dst : Nat) (hs : src < 4294967296)
    (hps : premultiplied src) (hpd : premultiplied dst) :
    premultiplied (sfntfont_android_blendrgb src dst) := by
  obtain ⟨e0, -⟩ := blendrgb_bytes src dst hs hps 0 (by omega)
  obtain ⟨e1, -⟩ := blendrgb_bytes src dst hs hps 1 (by omega)
  obtain ⟨e2, -⟩ := blendrgb_bytes src dst hs hps 2 (by omega)
  obtain ⟨e3, -⟩ := blendrgb_bytes src dst hs hps 3 (by omega)
  obtain ⟨p0, p1, p2⟩ := hps
  obtain ⟨d0, d1, d2⟩ := hpd
  have m0 := roundDiv255_mono (Nat.mul_le_mul_left (255 - byteAt 3 src) d0)
  have m1 := roundDiv255_mono (Nat.mul_le_mul_left (255 - byteAt 3 src) d1)
  have m2 := roundDiv255_mono (Nat.mul_le_mul_left (255 - byteAt 3 src) d2)
  unfold premultiplied
  rw [e0, e1, e2, e3]
  omega

/-- The saturating addition of `sfntfont_android_blend` is a plain addition
when `src` is premultiplied. -/
theorem blend_eq_add (src dst : Nat) (hs : src < 4294967296) (hp : premultiplied src) :
    blend_both src dst + blend_swizzle src < 4294967296
    ∧ sfntfont_android_blend src dst = blend_both src dst + blend_swizzle src := by
  have h := blendrgb_eq_add (swapRB src) dst (swapRB_lt src) (premultiplied_swapRB src hp)
  rw [blend_both_swapRB src dst hs, ← blend_eq_blendrgb_swapRB src dst hs,
    ← blend_swizzle_eq src] at h
  exact h

/-! ## `sfntfont_android_scale32`, byte by byte -/

theorem scale32_eq (scale p : Nat) (hs : scale ≤ 256) :
    sfntfont_android_scale32 scale p
      = scale * byteAt 0 p / 256 + 256 * (scale * byteAt 1 p / 256)
        + 65536 * (scale * byteAt 2 p / 256) + 16777216 * (scale * byteAt 3 p / 256) := by
  have h0 : scale * byteAt 0 p ≤ 256 * 255 := Nat.mul_le_mul hs (byteAt_le 0 p)
  have h1 : scale * byteAt 1 p ≤ 256 * 255 := Nat.mul_le_mul hs (byteAt_le 1 p)
  have h2 : scale * byteAt 2 p ≤ 256 * 255 := Nat.mul_le_mul hs (byteAt_le 2 p)
  have h3 : scale * byteAt 3 p ≤ 256 * 255 := Nat.mul_le_mul hs (byteAt_le 3 p)
  rw [byteAt_zero, byteAt_one, byteAt_two, byteAt_three] at *
  have hb0 : p % 256 ≤ 255 := by omega
  have hb1 : p / 256 % 256 ≤ 255 := by omega
  have hb2 : p / 65536 % 256 ≤ 255 := by omega
  have hb3 : p / 16777216 % 256 ≤ 255 := by omega
  unfold sfntfont_android_scale32
  simp only [and_mask_rb p, and_mask_ag p, Nat.shiftRight_eq_div_pow]
  generalize p % 256 = b0 at *
  generalize p / 256 % 256 = b1 at *
  generalize p / 65536 % 256 = b2 at *
  generalize p / 16777216 % 256 = b3 at *
  have hag : (256 * b1 + 16777216 * b3) / 2 ^ 8 = b1 + 65536 * b3 := by omega
  rw [hag]
  simp only [Nat.mul_add, Nat.mul_left_comm scale 65536]
  generalize scale * b0 = u0 at *
  generalize scale * b1 = u1 at *
  generalize scale * b2 = u2 at *
  generalize scale * b3 = u3 at *
  have hX : (u1 + 65536 * u3) % 4294967296 = u1 + 65536 * u3 := by omega
  have hY : (u0 + 65536 * u2) % 4294967296 = u0 + 65536 * u2 := by omega
  rw [hX, hY, and_mask_ag, and_mask_rb,
    or_lanes _ _ (by omega) (by omega) (by omega) (by omega)]
  omega

/-! ## `SFNT_CEIL_FIXED` -/

theorem and_low16 (n : Nat) : n &&& 65535 = n % 65536 :=
  Nat.and_pow_two_sub_one_eq_mod n 16

theorem and_high16 (n : Nat) : n &&& 4294901760 = 65536 * (n / 65536 % 65536) := by
  rw [and_split 16 n 4294901760]
  norm_num
  exact and_low16 _

/-- Closed form of `SFNT_CEIL_FIXED` read as `int32_t`, where the addition in
the macro does not overflow. -/
theorem ceil_fixed_closed_form (x : Int) (hlo : -2147483648 ≤ x) (hhi : x ≤ 2147418112) :
    toS32 (SFNT_CEIL_FIXED x) = 65536 * ((x + 65535) / 65536)
    ∧ (toU32 x &&& 65535 = 0 ↔ x % 65536 = 0) := by
  unfold SFNT_CEIL_FIXED toS32
  simp only [and_low16, and_high16]
  unfold toU32
  constructor
  · split_ifs <;> omega
  · omega

/-! ## The text box of `sfntfont_android_put_glyphs` -/

theorem contains_refl (a : gui_box) : a.contains a := by
  unfold gui_box.contains
  omega

theorem contains_trans {a b c : gui_box} (hab : a.contains b) (hbc : b.contains c) :
    a.contains c := by
  unfold gui_box.contains at *
  omega

theorem union_boxes_contains_left (a b : gui_box) :
    (sfntfont_android_union_boxes a b).contains a := by
  simp only [sfntfont_android_union_boxes, gui_box.contains, cmin, cmax]
  refine ⟨?_, ?_, ?_, ?_⟩ <;> split_ifs <;> omega

theorem union_boxes_contains_right (a b : gui_box) :
    (sfntfont_android_union_boxes a b).contains b := by
  simp only [sfntfont_android_union_boxes, gui_box.contains, cmin, cmax]
  refine ⟨?_, ?_, ?_, ?_⟩ <;> split_ifs <;> omega

/-- The loop only enlarges `text`. -/
theorem text_loop_contains_start (y : Int) (rasters : Nat → Option sfnt_raster)
    (x_coords : Nat → Int) (count i : Nat) (text : gui_box) :
    (put_glyphs_text_loop y rasters x_coords i count text).contains text := by
  induction count generalizing i text with
  | zero => exact contains_refl text
  | succ n ih =>
    unfold put_glyphs_text_loop
    cases hr : rasters i with
    | none => exact ih (i + 1) text
    | some r =>
      exact contains_trans (ih (i + 1) _) (union_boxes_contains_left text _)

/-- After the loop `text` contains the box of every non-null raster that the
loop visited. -/
theorem text_loop_contains_visited (y : Int) (rasters : Nat → Option sfnt_raster)
    (x_coords : Nat → Int) (count i : Nat) (text : gui_box) (j : Nat) (hij : i ≤ j)
    (hj : j < i + count) (r : sfnt_raster) (hr : rasters j = some r) :
    (put_glyphs_text_loop y rasters x_coords i count text).contains
      (raster_box y (x_coords j) r) := by
  induction count generalizing i text with
  | zero => omega
  | succ n ih =>
    unfold put_glyphs_text_loop
    by_cases hji : j = i
    · subst hji
      rw [hr]
      exact contains_trans (text_loop_contains_start y rasters x_coords n (j + 1) _)
        (union_boxes_contains_right text _)
    · cases hri : rasters i with
      | none => exact ih (i + 1) text (by omega) (by omega)
      | some q => exact ih (i + 1) _ (by omega) (by omega)

/-- The text box contains the box of every non-null raster of the call. -/
theorem put_glyphs_text_contains (from_idx to_idx y : Int)
    (rasters : Nat → Option sfnt_raster) (x_coords : Nat → Int) (i : Nat)
    (hi : (i : Int) < to_idx - from_idx) (r : sfnt_raster) (hr : rasters i = some r) :
    (put_glyphs_text from_idx to_idx y rasters x_coords).contains
      (raster_box y (x_coords i) r) := by
  unfold put_glyphs_text
  by_cases h0 : i = 0
  · subst h0
    simp only [hr]
    exact text_loop_contains_start y rasters x_coords _ 1 _
  · exact text_loop_contains_visited y rasters x_coords _ 1 _ i (by omega) (by omega) r hr

/-! ## `sfntfont_android_composite_bitmap`, where nothing wraps -/

/-- The inner loop leaves a word alone that is not one of its targets. -/
theorem composite_row_other (buffer : Nat → Nat) (src_row dst_row : Nat)
    (text_rectangle rect : android_rectangle) (count x : Nat) (dest : Nat → Nat)
    (hd : x + count + toU32 rect.x ≤ 4294967296) (o : Nat)
    (ho : ∀ k, x ≤ k → k < x + count → o ≠ dst_row + 4 * (k + toU32 rect.x)) :
    composite_bitmap_row buffer src_row dst_row text_rectangle rect x count dest o
      = dest o := by
  induction count generalizing x dest with
  | zero => rfl
  | succ n ih =>
    unfold composite_bitmap_row
    have hm : (x + toU32 rect.x) % 4294967296 = x + toU32 rect.x :=
      Nat.mod_eq_of_lt (by omega)
    simp only [hm]
    rw [ih (x + 1) _ (by omega) (fun k h1 h2 => ho k (by omega) (by omega))]
    exact if_neg (ho x (Nat.le_refl x) (by omega))

/-- The inner loop blends column `k` of the source row onto column `k + rect.x`
of the destination row, once. -/
theorem composite_row_hit (buffer : Nat → Nat) (src_row dst_row : Nat)
    (text_rectangle rect : android_rectangle) (count x : Nat) (dest : Nat → Nat)
    (hd : x + count + toU32 rect.x ≤ 4294967296)
    (hsrc : x + count + toU32 (rect.x - text_rectangle.x) ≤ 4294967296)
    (k : Nat) (hxk : x ≤ k) (hk : k < x + count) :
    composite_bitmap_row buffer src_row dst_row text_rectangle rect x count dest
        (dst_row + 4 * (k + toU32 rect.x))
      = sfntfont_android_blend
          (buffer (src_row + 4 * (k + toU32 (rect.x - text_rectangle.x))))
          (dest (dst_row + 4 * (k + toU32 rect.x))) := by
  induction count generalizing x dest with
  | zero => omega
  | succ n ih =>
    unfold composite_bitmap_row
    have hm : (x + toU32 rect.x) % 4294967296 = x + toU32 rect.x :=
      Nat.mod_eq_of_lt (by omega)
    have hs : (x + toU32 (rect.x - text_rectangle.x)) % 4294967296
        = x + toU32 (rect.x - text_rectangle.x) :=
      Nat.mod_eq_of_lt (by omega)
    simp only [hm, hs]
    by_cases hkx : k = x
    · subst hkx
      rw [composite_row_other buffer src_row dst_row text_rectangle rect n (k + 1) _
        (by omega) _ (fun j h1 h2 => by omega)]
      exact if_pos rfl
    · rw [ih (x + 1) _ (by omega) (by omega) (by omega) (by omega)]
      have hne : dst_row + 4 * (k + toU32 rect.x) ≠ dst_row + 4 * (x + toU32 rect.x) := by
        omega
      rw [if_neg hne]

/-- Words of different rows are different, columns being within the stride. -/
theorem row_offset_ne (S X1 X2 Y1 Y2 : Nat) (h1 : 4 * X1 < S) (h2 : 4 * X2 < S)
    (hne : Y1 ≠ Y2) : Y1 * S + 4 * X1 ≠ Y2 * S + 4 * X2 := by
  rcases Nat.lt_or_gt_of_ne hne with h | h
  · have hm : (Y1 + 1) * S ≤ Y2 * S := Nat.mul_le_mul_right S h
    rw [Nat.add_mul] at hm
    omega
  · have hm : (Y2 + 1) * S ≤ Y1 * S := Nat.mul_le_mul_right S h
    rw [Nat.add_mul] at hm
    omega

/-- The outer loop leaves a word alone that is not a target of one of its
rows. -/
theorem composite_rows_other (buffer : Nat → Nat) (stride : Nat)
    (bitmap_info : AndroidBitmapInfo) (text_rectangle rect : android_rectangle)
    (mx : Nat)
    (hmx : (if rect.width < (bitmap_info.width + 4294967296 - toU32 rect.x) % 4294967296
        then rect.width
        else (bitmap_info.width + 4294967296 - toU32 rect.x) % 4294967296) = mx)
    (hmxd : mx + toU32 rect.x ≤ 4294967296)
    (hHS : bitmap_info.height * bitmap_info.stride < 4294967296)
    (count i : Nat) (dest : Nat → Nat) (hi : i + count + toU32 rect.y ≤ 4294967296)
    (o : Nat)
    (ho : ∀ r k, i ≤ r → r < i + count → r + toU32 rect.y < bitmap_info.height → k < mx →
      o ≠ (r + toU32 rect.y) * bitmap_info.stride + 4 * (k + toU32 rect.x)) :
    composite_bitmap_rows buffer stride bitmap_info text_rectangle rect i count dest o
      = dest o := by
  induction count generalizing i dest with
  | zero => rfl
  | succ n ih =>
    unfold composite_bitmap_rows
    have hy : (i + toU32 rect.y) % 4294967296 = i + toU32 rect.y :=
      Nat.mod_eq_of_lt (by omega)
    simp only [hy, hmx]
    by_cases hret : bitmap_info.height ≤ i + toU32 rect.y
    · rw [if_pos hret]
    · rw [if_neg hret]
      have hle : (i + toU32 rect.y) * bitmap_info.stride
          ≤ bitmap_info.height * bitmap_info.stride :=
        Nat.mul_le_mul_right _ (by omega)
      have hrow : (i + toU32 rect.y) * bitmap_info.stride % 4294967296
          = (i + toU32 rect.y) * bitmap_info.stride :=
        Nat.mod_eq_of_lt (by omega)
      rw [ih (i + 1) _ (by omega)
        (fun r k h1 h2 h3 h4 => ho r k (by omega) (by omega) h3 h4), hrow]
      exact composite_row_other buffer _ _ text_rectangle rect mx 0 dest (by omega) o
        (fun k _ h2 => ho i k (Nat.le_refl i) (by omega) (by omega) (by omega))

/-- The outer loop blends the buffer pixel of row `r`, column `k` of `rect`
onto the destination pixel of the same row and column of `rect`, once. -/
theorem composite_rows_hit (buffer : Nat → Nat) (stride : Nat)
    (bitmap_info : AndroidBitmapInfo) (text_rectangle rect : android_rectangle)
    (mx : Nat)
    (hmx : (if rect.width < (bitmap_info.width + 4294967296 - toU32 rect.x) % 4294967296
        then rect.width
        else (bitmap_info.width + 4294967296 - toU32 rect.x) % 4294967296) = mx)
    (hmxW : mx + toU32 rect.x ≤ bitmap_info.width)
    (hW : 4 * bitmap_info.width ≤ bitmap_info.stride)
    (hHS : bitmap_info.height * bitmap_info.stride < 4294967296)
    (hmxs : mx + toU32 (rect.x - text_rectangle.x) ≤ 4294967296)
    (count i : Nat) (dest : Nat → Nat) (hi : i + count + toU32 rect.y ≤ 4294967296)
    (his : i + count + toU32 (rect.y - text_rectangle.y) ≤ 4294967296)
    (r k : Nat) (hir : i ≤ r) (hr : r < i + count)
    (hrH : r + toU32 rect.y < bitmap_info.height) (hk : k < mx) :
    composite_bitmap_rows buffer stride bitmap_info text_rectangle rect i count dest
        ((r + toU32 rect.y) * bitmap_info.stride + 4 * (k + toU32 rect.x))
      = sfntfont_android_blend
          (buffer ((r + toU32 (rect.y - text_rectangle.y)) * stride
            + 4 * (k + toU32 (rect.x - text_rectangle.x))))
          (dest ((r + toU32 rect.y) * bitmap_info.stride + 4 * (k + toU32 rect.x))) := by
  have hS : 0 < bitmap_info.stride := by
    rcases Nat.eq_zero_or_pos bitmap_info.stride with h0 | h0
    · rw [h0] at hW
      omega
    · exact h0
  have hHSle : bitmap_info.stride ≤ bitmap_info.height * bitmap_info.stride :=
    Nat.le_mul_of_pos_left _ (by omega)
  have hmxd : mx + toU32 rect.x ≤ 4294967296 := by omega
  induction count generalizing i dest with
  | zero => omega
  | succ n ih =>
    unfold composite_bitmap_rows
    have hy : (i + toU32 rect.y) % 4294967296 = i + toU32 rect.y :=
      Nat.mod_eq_of_lt (by omega)
    have hsy : (i + toU32 (rect.y - text_rectangle.y)) % 4294967296
        = i + toU32 (rect.y - text_rectangle.y) :=
      Nat.mod_eq_of_lt (by omega)
    have hret : ¬ bitmap_info.height ≤ i + toU32 rect.y := by omega
    have hle : (i + toU32 rect.y) * bitmap_info.stride
        ≤ bitmap_info.height * bitmap_info.stride :=
      Nat.mul_le_mul_right _ (by omega)
    have hrow : (i + toU32 rect.y) * bitmap_info.stride % 4294967296
        = (i + toU32 rect.y) * bitmap_info.stride :=
      Nat.mod_eq_of_lt (by omega)
    simp only [hy, hsy, hmx, if_neg hret, hrow]
    by_cases hri : r = i
    · subst hri
      rw [composite_rows_other buffer stride bitmap_info text_rectangle rect mx hmx hmxd hHS
        n (r + 1) _ (by omega) _
        (fun q j h1 _ _ h4 =>
          row_offset_ne _ _ _ _ _ (by omega) (by omega) (by omega))]
      exact composite_row_hit buffer _ _ text_rectangle rect mx 0 dest (by omega) (by omega)
        k (Nat.zero_le k) (by omega)
    · rw [ih (i + 1) _ (by omega) (by omega) (by omega) (by omega),
        composite_row_other buffer _ _ text_rectangle rect mx 0 dest (by omega) _
          (fun j _ h2 => row_offset_ne _ _ _ _ _ (by omega) (by omega) (by omega))]

/-- The compositor on a rectangle that does not start right of the bitmap
(`rect.x <= bitmap_info.width`), sizes being such that no `unsigned int`
operation wraps: the pixels of `rect` that lie in the bitmap are blended with
the buffer pixel at the same place of `text_rectangle`, every other pixel of the
bitmap is unchanged, and so is every word that is not a pixel of the bitmap. -/
theorem composite_bitmap_clipped (buffer : Nat → Nat) (stride dest_addr : Nat)
    (dest : Nat → Nat) (bitmap_info : AndroidBitmapInfo)
    (text_rectangle rect : android_rectangle)
    (ha : dest_addr % 4 = 0) (hs : bitmap_info.stride % 4 = 0)
    (hS : bitmap_info.stride < 4294967296)
    (hW : 4 * bitmap_info.width ≤ bitmap_info.stride)
    (hHS : bitmap_info.height * bitmap_info.stride < 4294967296)
    (hx0 : 0 ≤ rect.x) (hy0 : 0 ≤ rect.y)
    (htx : text_rectangle.x ≤ rect.x) (hty : text_rectangle.y ≤ rect.y)
    (htw : rect.x + rect.width ≤ text_rectangle.x + text_rectangle.width)
    (hth : rect.y + rect.height ≤ text_rectangle.y + text_rectangle.height)
    (hwt : text_rectangle.width < 4294967296) (hht : text_rectangle.height < 4294967296)
    (hyh : rect.y + rect.height < 4294967296)
    (hxW : rect.x ≤ bitmap_info.width) :
    ∃ m, sfntfont_android_composite_bitmap buffer stride dest_addr dest bitmap_info
          text_rectangle rect = some m
      ∧ (∀ X Y : Nat, X < bitmap_info.width → Y < bitmap_info.height →
          m (Y * bitmap_info.stride + 4 * X)
            = if rect.x ≤ X ∧ (X : Int) < rect.x + rect.width
                  ∧ rect.y ≤ Y ∧ (Y : Int) < rect.y + rect.height
              then sfntfont_android_blend
                (buffer (((Y : Int) - text_rectangle.y).toNat * stride
                  + 4 * ((X : Int) - text_rectangle.x).toNat))
                (dest (Y * bitmap_info.stride + 4 * X))
              else dest (Y * bitmap_info.stride + 4 * X))
      ∧ (∀ o, (∀ X Y : Nat, X < bitmap_info.width → Y < bitmap_info.height →
            o ≠ Y * bitmap_info.stride + 4 * X) → m o = dest o) := by
  have ga : dest_addr &&& 3 = 0 := by
    rw [show (3 : Nat) = 2 ^ 2 - 1 from rfl, Nat.and_pow_two_sub_one_eq_mod]
    exact ha
  have gs : bitmap_info.stride &&& 3 = 0 := by
    rw [show (3 : Nat) = 2 ^ 2 - 1 from rfl, Nat.and_pow_two_sub_one_eq_mod]
    exact hs
  have hrx : (toU32 rect.x : Int) = rect.x := by
    unfold toU32
    omega
  have hry : (toU32 rect.y : Int) = rect.y := by
    unfold toU32
    omega
  have hdx : (toU32 (rect.x - text_rectangle.x) : Int) = rect.x - text_rectangle.x := by
    unfold toU32
    omega
  have hdy : (toU32 (rect.y - text_rectangle.y) : Int) = rect.y - text_rectangle.y := by
    unfold toU32
    omega
  have hav : (bitmap_info.width + 4294967296 - toU32 rect.x) % 4294967296
      = bitmap_info.width - toU32 rect.x := by
    omega
  obtain ⟨mx, hmx⟩ : ∃ mx,
      (if rect.width < (bitmap_info.width + 4294967296 - toU32 rect.x) % 4294967296
        then rect.width
        else (bitmap_info.width + 4294967296 - toU32 rect.x) % 4294967296) = mx :=
    ⟨_, rfl⟩
  have hmxv : mx = min rect.width (bitmap_info.width - toU32 rect.x) := by
    rw [← hmx, hav]
    split_ifs <;> omega
  refine ⟨composite_bitmap_rows buffer stride bitmap_info text_rectangle rect 0
    rect.height dest, ?_, ?_, ?_⟩
  · unfold sfntfont_android_composite_bitmap
    simp [ga, gs]
  · intro X Y hX hY
    by_cases hin : rect.x ≤ X ∧ (X : Int) < rect.x + rect.width
        ∧ rect.y ≤ Y ∧ (Y : Int) < rect.y + rect.height
    · rw [if_pos hin]
      obtain ⟨i1, i2, i3, i4⟩ := hin
      have h := composite_rows_hit buffer stride bitmap_info text_rectangle rect mx hmx
        (by omega) hW hHS (by omega) rect.height 0 dest (by omega) (by omega)
        (Y - toU32 rect.y) (X - toU32 rect.x) (Nat.zero_le _) (by omega) (by omega)
        (by omega)
      have e1 : Y - toU32 rect.y + toU32 rect.y = Y := by omega
      have e2 : X - toU32 rect.x + toU32 rect.x = X := by omega
      have e3 : Y - toU32 rect.y + toU32 (rect.y - text_rectangle.y)
          = ((Y : Int) - text_rectangle.y).toNat := by omega
      have e4 : X - toU32 rect.x + toU32 (rect.x - text_rectangle.x)
          = ((X : Int) - text_rectangle.x).toNat := by omega
      rw [e1, e2, e3, e4] at h
      exact h
    · rw [if_neg hin]
      apply composite_rows_other buffer stride bitmap_info text_rectangle rect mx hmx
        (by omega) hHS rect.height 0 dest (by omega)
      intro r k _ h2 h3 h4
      by_cases hYr : Y = r + toU32 rect.y
      · have hXk : X ≠ k + toU32 rect.x := by
          intro hXk
          apply hin
          omega
        rw [hYr]
        omega
      · exact row_offset_ne _ _ _ _ _ (by omega) (by omega) hYr
  · intro o ho
    apply composite_rows_other buffer stride bitmap_info text_rectangle rect mx hmx
      (by omega) hHS rect.height 0 dest (by omega)
    intro r k _ _ h3 h4
    exact ho (k + toU32 rect.x) (r + toU32 rect.y) (by omega) h3

/-- The hypotheses of `composite_bitmap_clipped` hold for a 2 by 2 bitmap with a
stride of 8 bytes and a rectangle of two pixels, the second one right of the
bitmap: pixel (1, 0) is blended, pixel (0, 0) is unchanged. -/
theorem composite_bitmap_clipped_example :
    ∃ m, sfntfont_android_composite_bitmap (fun o => 0x80000000 + o) 16 0
          (fun o => 0xFF000000 + o) { width := 2, height := 2, stride := 8 }
          { x := 0, y := 0, width := 4, height := 1 }
          { x := 1, y := 0, width := 2, height := 1 } = some m
      ∧ m 4 = sfntfont_android_blend 0x80000004 0xFF000004
      ∧ m 0 = 0xFF000000 := by
  obtain ⟨m, h1, h2, -⟩ := composite_bitmap_clipped (fun o => 0x80000000 + o) 16 0
    (fun o => 0xFF000000 + o) { width := 2, height := 2, stride := 8 }
    { x := 0, y := 0, width := 4, height := 1 }
    { x := 1, y := 0, width := 2, height := 1 }
    (by decide) (by decide) (by decide) (by decide) (by decide) (by decide) (by decide)
    (by decide) (by decide) (by decide) (by decide) (by decide) (by decide) (by decide)
    (by decide)
  refine ⟨m, h1, ?_, ?_⟩
  · have h := h2 1 0 (by decide) (by decide)
    simpa using h
  · have h := h2 0 0 (by decide) (by decide)
    simpa using h

/-! ## Claims about the blend functions -/

/-- C1: for a 32-bit premultiplied `src` and any `dst`, each of the four bytes
`k` of `sfntfont_android_blendrgb (src, dst)` is byte `k` of `src` plus
`(255 - a) * byte k of dst / 255` rounded to the nearest integer, `a` being the
alpha byte of `src`; the sum is at most 255, so no byte carries into the next.
The last two conjuncts say that the rounded quotient is within `127 / 255` of
the exact one. -/
theorem blendrgb_over_operator (src dst : Nat) (hs : src < 4294967296)
    (hp : premultiplied src) (k : Nat) (hk : k < 4) :
    byteAt 3 src = src >>> 24
    ∧ byteAt k (sfntfont_android_blendrgb src dst)
        = byteAt k src + roundDiv255 ((255 - byteAt 3 src) * byteAt k dst)
    ∧ byteAt k src + roundDiv255 ((255 - byteAt 3 src) * byteAt k dst) ≤ 255
    ∧ 255 * roundDiv255 ((255 - byteAt 3 src) * byteAt k dst)
        ≤ (255 - byteAt 3 src) * byteAt k dst + 127
    ∧ (255 - byteAt 3 src) * byteAt k dst
        ≤ 255 * roundDiv255 ((255 - byteAt 3 src) * byteAt k dst) + 127 := by
  have ha : byteAt 3 src = src >>> 24 := by
    rw [byteAt_three, Nat.shiftRight_eq_div_pow]
    omega
  obtain ⟨h1, h2⟩ := blendrgb_bytes src dst hs hp k hk
  obtain ⟨h3, h4⟩ := roundDiv255_nearest ((255 - byteAt 3 src) * byteAt k dst)
  exact ⟨ha, h1, h2, h3, h4⟩

/-- Witness of C1: half-transparent `0x80402010` over `0xFFC0A050`, byte 1. -/
theorem blendrgb_over_operator_witness :
    (0x80402010 < 4294967296 ∧ premultiplied 0x80402010 ∧ 1 < 4)
    ∧ byteAt 1 (sfntfont_android_blendrgb 0x80402010 0xFFC0A050)
        = byteAt 1 0x80402010
          + roundDiv255 ((255 - byteAt 3 0x80402010) * byteAt 1 0xFFC0A050) :=
  ⟨by decide,
    (blendrgb_over_operator 0x80402010 0xFFC0A050 (by decide) (by decide) 1 (by decide)).2.1⟩

/-- C2: for every 32-bit `src` and every `dst`, `sfntfont_android_blend (src,
dst)` is `sfntfont_android_blendrgb` at the source with bytes 0 and 2
exchanged, alpha (byte 3) and green (byte 1) staying in place. -/
theorem blend_is_blendrgb_of_swapped (src dst : Nat) (hs : src < 4294967296) :
    sfntfont_android_blend src dst = sfntfont_android_blendrgb (swapRB src) dst
    ∧ byteAt 0 (swapRB src) = byteAt 2 src ∧ byteAt 1 (swapRB src) = byteAt 1 src
    ∧ byteAt 2 (swapRB src) = byteAt 0 src ∧ byteAt 3 (swapRB src) = byteAt 3 src :=
  ⟨blend_eq_blendrgb_swapRB src dst hs, byteAt_swapRB src⟩

/-- Witness of C2 at `src = 0x80402010`, `dst = 0xFFC0A050`. -/
theorem blend_is_blendrgb_of_swapped_witness :
    0x80402010 < 4294967296
    ∧ sfntfont_android_blend 0x80402010 0xFFC0A050
        = sfntfont_android_blendrgb (swapRB 0x80402010) 0xFFC0A050 :=
  ⟨by decide, (blend_is_blendrgb_of_swapped 0x80402010 0xFFC0A050 (by decide)).1⟩

/-! ## Claims about the scaling and saturation helpers -/

/-- C3: for `0 <= scale <= 256` and a 32-bit `p`, each byte `k` of
`sfntfont_android_scale32 (scale, p)` is `floor (scale * byte k of p / 256)`;
scaling by 256 returns `p` and scaling by 0 returns 0. -/
theorem scale32_scales_each_byte (scale p : Nat) (hs : scale ≤ 256) (hp : p < 4294967296) :
    (∀ k, k < 4 → byteAt k (sfntfont_android_scale32 scale p) = scale * byteAt k p / 256)
    ∧ sfntfont_android_scale32 256 p = p
    ∧ sfntfont_android_scale32 0 p = 0 := by
  refine ⟨?_, ?_, ?_⟩
  · intro k hk
    have h0 : scale * byteAt 0 p ≤ 256 * 255 := Nat.mul_le_mul hs (byteAt_le 0 p)
    have h1 : scale * byteAt 1 p ≤ 256 * 255 := Nat.mul_le_mul hs (byteAt_le 1 p)
    have h2 : scale * byteAt 2 p ≤ 256 * 255 := Nat.mul_le_mul hs (byteAt_le 2 p)
    have h3 : scale * byteAt 3 p ≤ 256 * 255 := Nat.mul_le_mul hs (byteAt_le 3 p)
    obtain ⟨e0, e1, e2, e3⟩ := byteAt_digits (scale * byteAt 0 p / 256)
      (scale * byteAt 1 p / 256) (scale * byteAt 2 p / 256) (scale * byteAt 3 p / 256)
      (by omega) (by omega) (by omega) (by omega)
    rw [scale32_eq scale p hs]
    have hk4 : k = 0 ∨ k = 1 ∨ k = 2 ∨ k = 3 := by omega
    rcases hk4 with rfl | rfl | rfl | rfl
    · exact e0
    · exact e1
    · exact e2
    · exact e3
  · have hw := word_eq_bytes p hp
    rw [scale32_eq 256 p (Nat.le_refl 256)]
    omega
  · rw [scale32_eq 0 p (by omega)]
    simp

/-- Witness of C3: coverage 128 applied to `0xFF336699`. -/
theorem scale32_scales_each_byte_witness :
    (128 ≤ 256 ∧ 0xFF336699 < 4294967296)
    ∧ byteAt 2 (sfntfont_android_scale32 128 0xFF336699) = 128 * byteAt 2 0xFF336699 / 256 :=
  ⟨by decide,
    (scale32_scales_each_byte 128 0xFF336699 (by decide) (by decide)).1 2 (by decide)⟩

/-- C4: on 32-bit operands `sfntfont_android_saturate32 (a, b)` is
`min (a + b, 2^32 - 1)` over the naturals: `a + b` when that is below `2^32`,
`UINT_MAX` otherwise. -/
theorem saturate32_is_saturating_add (a b : Nat) (ha : a < 4294967296)
    (hb : b < 4294967296) :
    sfntfont_android_saturate32 a b = min (a + b) UINT_MAX
    ∧ (a + b < 4294967296 → sfntfont_android_saturate32 a b = a + b)
    ∧ (4294967296 ≤ a + b → sfntfont_android_saturate32 a b = UINT_MAX) := by
  unfold sfntfont_android_saturate32 UINT_MAX
  simp only
  by_cases h : a + b < 4294967296
  · rw [Nat.mod_eq_of_lt h, if_neg (by omega)]
    omega
  · have hc : (a + b) % 4294967296 < a := by omega
    rw [if_pos hc]
    omega

/-- Witness of C4: an overflowing sum saturates. -/
theorem saturate32_is_saturating_add_witness :
    (0xFFFFFF00 < 4294967296 ∧ 0x200 < 4294967296)
    ∧ sfntfont_android_saturate32 0xFFFFFF00 0x200 = min (0xFFFFFF00 + 0x200) UINT_MAX :=
  ⟨by decide, (saturate32_is_saturating_add 0xFFFFFF00 0x200 (by decide) (by decide)).1⟩

/-- C5: for a 32-bit premultiplied `src` and a premultiplied `dst`, every
colour byte of `sfntfont_android_blendrgb (src, dst)` is at most the alpha
byte of the result, and the same holds for `sfntfont_android_blend`. -/
theorem blend_keeps_premultiplied (src dst : Nat) (hs : src < 4294967296)
    (hps : premultiplied src) (hpd : premultiplied dst) :
    premultiplied (sfntfont_android_blendrgb src dst)
    ∧ premultiplied (sfntfont_android_blend src dst) := by
  refine ⟨blendrgb_premultiplied src dst hs hps hpd, ?_⟩
  rw [blend_eq_blendrgb_swapRB src dst hs]
  exact blendrgb_premultiplied (swapRB src) dst (swapRB_lt src)
    (premultiplied_swapRB src hps) hpd

/-- Witness of C5 at `src = 0x80402010`, `dst = 0xFFC0A050`. -/
theorem blend_keeps_premultiplied_witness :
    (0x80402010 < 4294967296 ∧ premultiplied 0x80402010 ∧ premultiplied 0xFFC0A050)
    ∧ premultiplied (sfntfont_android_blendrgb 0x80402010 0xFFC0A050)
    ∧ premultiplied (sfntfont_android_blend 0x80402010 0xFFC0A050) :=
  ⟨by decide,
    blend_keeps_premultiplied 0x80402010 0xFFC0A050 (by decide) (by decide) (by decide)⟩

/-- C6: for a 32-bit premultiplied `src` and any `dst`, the final addition of
`both` and `src` (swizzled in `sfntfont_android_blend`) stays below `2^32`: the
test `c < a` of `sfntfont_android_saturate32` fails, and both blend functions
return the plain sum. -/
theorem blend_saturation_unnecessary (src dst : Nat) (hs : src < 4294967296)
    (hp : premultiplied src) :
    (blend_both src dst + src < 4294967296
      ∧ ¬ ((blend_both src dst + src) % 4294967296 < blend_both src dst)
      ∧ sfntfont_android_saturate32 (blend_both src dst) src = blend_both src dst + src
      ∧ sfntfont_android_blendrgb src dst = blend_both src dst + src)
    ∧ (blend_both src dst + blend_swizzle src < 4294967296
      ∧ ¬ ((blend_both src dst + blend_swizzle src) % 4294967296 < blend_both src dst)
      ∧ sfntfont_android_saturate32 (blend_both src dst) (blend_swizzle src)
          = blend_both src dst + blend_swizzle src
      ∧ sfntfont_android_blend src dst = blend_both src dst + blend_swizzle src) := by
  obtain ⟨h1, h2⟩ := blendrgb_eq_add src dst hs hp
  obtain ⟨h3, h4⟩ := blend_eq_add src dst hs hp
  refine ⟨⟨h1, ?_, h2, h2⟩, ⟨h3, ?_, h4, h4⟩⟩
  · rw [Nat.mod_eq_of_lt h1]
    omega
  · rw [Nat.mod_eq_of_lt h3]
    omega

/-- Witness of C6 at `src = 0x80402010`, `dst = 0xFFFFFFFF`. -/
theorem blend_saturation_unnecessary_witness :
    (0x80402010 < 4294967296 ∧ premultiplied 0x80402010)
    ∧ sfntfont_android_blendrgb 0x80402010 0xFFFFFFFF
        = blend_both 0x80402010 0xFFFFFFFF + 0x80402010 :=
  ⟨by decide, (blend_saturation_unnecessary 0x80402010 0xFFFFFFFF (by decide) (by decide)).1.2.2.2⟩

/-! ## Claims about `sfnt.h` -/

/-- C7: for every 32-bit signed `x` with `x <= 0x7FFF0000`, negative values
included, `SFNT_CEIL_FIXED (x)` read as a 32-bit signed value is the least
multiple of `0x10000` that is `>= x`, and it is `x` itself exactly when the low
16 bits of `x` are zero. -/
theorem ceil_fixed_is_ceiling (x : Int) (hlo : -2147483648 ≤ x) (hhi : x ≤ 0x7FFF0000) :
    (65536 : Int) ∣ toS32 (SFNT_CEIL_FIXED x)
    ∧ x ≤ toS32 (SFNT_CEIL_FIXED x)
    ∧ (∀ m : Int, (65536 : Int) ∣ m → x ≤ m → toS32 (SFNT_CEIL_FIXED x) ≤ m)
    ∧ (toS32 (SFNT_CEIL_FIXED x) = x ↔ toU32 x &&& 0xFFFF = 0) := by
  obtain ⟨hc, hl⟩ := ceil_fixed_closed_form x hlo hhi
  rw [hc, hl]
  refine ⟨?_, ?_, ?_, ?_⟩
  · omega
  · omega
  · intro m hm hx
    omega
  · omega

/-- Witness of C7 at the negative value `-0x18000` (that is, -1.5), whose
ceiling is `-0x10000`. -/
theorem ceil_fixed_is_ceiling_witness :
    ((-2147483648 : Int) ≤ -98304 ∧ (-98304 : Int) ≤ 0x7FFF0000)
    ∧ (-98304 : Int) ≤ toS32 (SFNT_CEIL_FIXED (-98304)) :=
  ⟨by decide, (ceil_fixed_is_ceiling (-98304) (by decide) (by decide)).2.1⟩

/-- C8 (evaluation of the code): `sfnt_coerce_fixed (0x10000)` is the quotient
`65536 / 65535`, which exceeds 1 by `1 / 65535`; the macro divides by `65535.0`
where the 16.16 format calls for `65536.0`. -/
theorem coerce_fixed_one_is_not_one :
    sfnt_coerce_fixed 0x10000 = 65536 / 65535
    ∧ sfnt_coerce_fixed 0x10000 - 1 = 1 / 65535
    ∧ sfnt_coerce_fixed 0x10000 ≠ 1 := by
  unfold sfnt_coerce_fixed
  norm_num

/-- C9: `sfntfont_android_union_boxes (a, b)` has the minima of the `x1` and
`y1` and the maxima of the `x2` and `y2` of its arguments; it contains both,
every box containing both contains it, and the operation is commutative,
associative and idempotent. -/
theorem union_boxes_is_smallest_containing (a b c : gui_box) :
    ((sfntfont_android_union_boxes a b).x1 = min a.x1 b.x1
      ∧ (sfntfont_android_union_boxes a b).y1 = min a.y1 b.y1
      ∧ (sfntfont_android_union_boxes a b).x2 = max a.x2 b.x2
      ∧ (sfntfont_android_union_boxes a b).y2 = max a.y2 b.y2)
    ∧ (sfntfont_android_union_boxes a b).contains a
    ∧ (sfntfont_android_union_boxes a b).contains b
    ∧ (c.contains a → c.contains b → c.contains (sfntfont_android_union_boxes a b))
    ∧ sfntfont_android_union_boxes a b = sfntfont_android_union_boxes b a
    ∧ sfntfont_android_union_boxes (sfntfont_android_union_boxes a b) c
        = sfntfont_android_union_boxes a (sfntfont_android_union_boxes b c)
    ∧ sfntfont_android_union_boxes a a = a := by
  obtain ⟨a1, a2, a3, a4⟩ := a
  obtain ⟨b1, b2, b3, b4⟩ := b
  obtain ⟨c1, c2, c3, c4⟩ := c
  simp only [sfntfont_android_union_boxes, gui_box.contains, cmin, cmax, gui_box.mk.injEq]
  refine ⟨⟨?_, ?_, ?_, ?_⟩, ⟨?_, ?_, ?_, ?_⟩, ⟨?_, ?_, ?_, ?_⟩, ?_, ⟨?_, ?_, ?_, ?_⟩,
    ⟨?_, ?_, ?_, ?_⟩, ⟨?_, ?_, ?_, ?_⟩⟩
  all_goals (try intro h1 h2)
  all_goals split_ifs
  all_goals omega

/-- C10: the polygon rasterization constants are `SFNT_POLY_SHIFT = 2`,
`SFNT_POLY_SAMPLE = 4`, `SFNT_POLY_MASK = 3`, `SFNT_POLY_STEP = 0x10000 >> 2 =
16384` and `SFNT_POLY_START = SFNT_POLY_STEP / 2 = 8192`, and
`SFNT_POLY_SAMPLE * SFNT_POLY_STEP = 0x10000`. -/
theorem poly_constants :
    SFNT_POLY_SHIFT = 2 ∧ SFNT_POLY_SAMPLE = 4 ∧ SFNT_POLY_MASK = 3
    ∧ SFNT_POLY_STEP = 0x10000 >>> 2 ∧ SFNT_POLY_STEP = 16384
    ∧ SFNT_POLY_START = SFNT_POLY_STEP / 2 ∧ SFNT_POLY_START = 8192
    ∧ SFNT_POLY_SAMPLE * SFNT_POLY_STEP = 0x10000 := by
  decide

/-- C11: the scaler kinds are the big-endian 32-bit values of their four-byte
tags, `true`, `typ1` and `OTTO`, `SFNT_SCALER_VER1` is `0x00010000`, and the
four values are pairwise distinct. -/
theorem scaler_types_are_tags :
    SFNT_SCALER_TRUE = tag32 't' 'r' 'u' 'e'
    ∧ SFNT_SCALER_TYP1 = tag32 't' 'y' 'p' '1'
    ∧ SFNT_SCALER_OTTO = tag32 'O' 'T' 'T' 'O'
    ∧ SFNT_SCALER_VER1 = 0x00010000
    ∧ SFNT_SCALER_TRUE ≠ SFNT_SCALER_VER1 ∧ SFNT_SCALER_TRUE ≠ SFNT_SCALER_TYP1
    ∧ SFNT_SCALER_TRUE ≠ SFNT_SCALER_OTTO ∧ SFNT_SCALER_VER1 ≠ SFNT_SCALER_TYP1
    ∧ SFNT_SCALER_VER1 ≠ SFNT_SCALER_OTTO ∧ SFNT_SCALER_TYP1 ≠ SFNT_SCALER_OTTO := by
  decide

/-- C13: in a call of `sfntfont_android_put_glyphs` with `from < to`, for every
index `i` in `[0, to - from)` whose raster is non-null, the text box satisfies
`text.x1 <= x_coords[i] + offx`, `text.y1 <= y - (height + offy)`,
`x_coords[i] + offx + width <= text.x2` and `y - offy <= text.y2`; so the
offsets of the raster from the origin of the text box are non-negative and its
columns and rows end inside the box. -/
theorem put_glyphs_text_contains_every_raster (from_idx to_idx y : Int)
    (rasters : Nat → Option sfnt_raster) (x_coords : Nat → Int)
    (hft : from_idx < to_idx) (i : Nat) (hi : (i : Int) < to_idx - from_idx)
    (r : sfnt_raster) (hr : rasters i = some r) :
    ((put_glyphs_text from_idx to_idx y rasters x_coords).x1 ≤ x_coords i + r.offx
      ∧ (put_glyphs_text from_idx to_idx y rasters x_coords).y1 ≤ y - (r.height + r.offy)
      ∧ x_coords i + r.offx + r.width
          ≤ (put_glyphs_text from_idx to_idx y rasters x_coords).x2
      ∧ y - r.offy ≤ (put_glyphs_text from_idx to_idx y rasters x_coords).y2)
    ∧ 0 ≤ x_coords i + r.offx - (put_glyphs_text from_idx to_idx y rasters x_coords).x1
    ∧ 0 ≤ y - (r.height + r.offy)
          - (put_glyphs_text from_idx to_idx y rasters x_coords).y1
    ∧ x_coords i + r.offx - (put_glyphs_text from_idx to_idx y rasters x_coords).x1
          + r.width
        ≤ (put_glyphs_text from_idx to_idx y rasters x_coords).x2
          - (put_glyphs_text from_idx to_idx y rasters x_coords).x1
    ∧ y - (r.height + r.offy) - (put_glyphs_text from_idx to_idx y rasters x_coords).y1
          + r.height
        ≤ (put_glyphs_text from_idx to_idx y rasters x_coords).y2
          - (put_glyphs_text from_idx to_idx y rasters x_coords).y1 := by
  have h := put_glyphs_text_contains from_idx to_idx y rasters x_coords i hi r hr
  have _ := hft
  generalize put_glyphs_text from_idx to_idx y rasters x_coords = text at *
  simp only [gui_box.contains, raster_box] at h
  omega

/-- C12 (evaluation of the code): a rectangle that starts right of the bitmap.
The bitmap is 1 pixel wide and 3 high with a stride of 4 bytes, and `rect` is
the single pixel (2, 0). No pixel of `rect` lies in the bitmap, yet the call
blends the buffer pixel onto the word at byte offset 8, which is pixel (0, 2):
`bitmap_info->width - rect->x` wraps to `0xFFFFFFFF`, so `max_x` is
`rect->width`. -/
theorem composite_bitmap_right_of_bitmap :
    (sfntfont_android_composite_bitmap (fun o => if o = 0 then 0xFF000000 else 0) 8 0
        (fun _ => 0xFFFFFFFF) { width := 1, height := 3, stride := 4 }
        { x := 2, y := 0, width := 1, height := 1 }
        { x := 2, y := 0, width := 1, height := 1 }).map (fun m => (m 0, m 4, m 8))
      = some (0xFFFFFFFF, 0xFFFFFFFF, 0xFF000000)
    ∧ (1 + 4294967296 - toU32 2) % 4294967296 = 0xFFFFFFFF := by
  decide

/-- Witness of C13: three glyphs on the baseline `y = 20`, the first raster
null, at the second one. -/
theorem put_glyphs_text_contains_every_raster_witness :
    ((0 : Int) < 3 ∧ ((1 : Nat) : Int) < 3 - 0
      ∧ (fun i : Nat => if i = 0 then none else some (sfnt_raster.mk 5 7 (-1) (-2))) 1
          = some (sfnt_raster.mk 5 7 (-1) (-2)))
    ∧ (put_glyphs_text 0 3 20
          (fun i : Nat => if i = 0 then none else some (sfnt_raster.mk 5 7 (-1) (-2)))
          (fun i : Nat => 10 * (i : Int))).x1
        ≤ (fun i : Nat => 10 * (i : Int)) 1 + (sfnt_raster.mk 5 7 (-1) (-2)).offx :=
  ⟨by decide,
    (put_glyphs_text_contains_every_raster 0 3 20
      (fun i : Nat => if i = 0 then none else some (sfnt_raster.mk 5 7 (-1) (-2)))
      (fun i : Nat => 10 * (i : Int)) (by decide) 1 (by decide)
      (sfnt_raster.mk 5 7 (-1) (-2)) (by decide)).1.1⟩

end Sfnt
